import Mathlib

/-!
Verification development for the sutra repository: a shallow Lean embedding
of the registry model (`src/model.rs`), the state-diff notification engine
(`src/notifications.rs`) and the filesystem watch bridge (`src/watcher.rs`),
together with theorems settling the specification claims.

Strings are modelled by Lean `String` (a wrapper around `List Char`); Rust
string-slice primitives (`strip_prefix`, `strip_suffix`, `split_once`,
`trim`, `lines`, `join`) are embedded as structural functions on `List Char`
with the same semantics.  Filesystem access is modelled by passing the
directory listing (a list of name/content pairs) explicitly; the liveness
probe (`signal::kill`) is an oracle parameter.
-/

namespace Sutra

/-! ### Rust string-slice primitives, embedded over `List Char` -/

/-- Embedding of Rust `str::split_once(pat)`: split at the first occurrence
of `pat`, returning the parts before and after it. -/
def splitOnceList (pat : List Char) : List Char → Option (List Char × List Char)
  | [] => if pat.isEmpty then some ([], []) else Option.none
  | a :: t =>
    if pat.isPrefixOf (a :: t) then some ([], (a :: t).drop pat.length)
    else
      match splitOnceList pat t with
      | some (x, y) => some (a :: x, y)
      | Option.none => Option.none

/-- Embedding of Rust `str::strip_suffix(pat)`. -/
def stripSuffixList (l pat : List Char) : Option (List Char) :=
  if pat.isSuffixOf l then some (l.take (l.length - pat.length)) else Option.none

/-- Embedding of Rust `str::strip_prefix(pat)`. -/
def stripPrefixList (pat l : List Char) : Option (List Char) :=
  if pat.isPrefixOf l then some (l.drop pat.length) else Option.none

/-- Embedding of Rust `char::is_ascii_hexdigit`. -/
def isAsciiHexDigit (c : Char) : Bool :=
  ('0' ≤ c && c ≤ '9') || ('a' ≤ c && c ≤ 'f') || ('A' ≤ c && c ≤ 'F')

/-- Embedding of Rust `str::starts_with('.')`. -/
def startsWithDot : List Char → Bool
  | '.' :: _ => true
  | _ => false

/-- Whitespace test used by `trim` (ASCII whitespace as in Lean core;
Rust trims by the Unicode White-Space property, which agrees on ASCII). -/
def isWhite (c : Char) : Bool :=
  c = ' ' || c = '\t' || c = '\r' || c = '\n'

/-- Embedding of Rust `str::trim`. -/
def trimList (l : List Char) : List Char :=
  ((l.dropWhile isWhite).reverse.dropWhile isWhite).reverse

/-- Split a character list on newline characters (groups between each `\n`). -/
def splitOnNewline : List Char → List (List Char)
  | [] => [[]]
  | c :: t =>
    match splitOnNewline t with
    | [] => [[]]
    | cur :: rest => if c = '\n' then [] :: cur :: rest else (c :: cur) :: rest

/-- Strip one trailing carriage return, as Rust `str::lines` does for
lines terminated by `\r\n`. -/
def stripCR (l : List Char) : List Char :=
  match l.reverse with
  | '\r' :: t => t.reverse
  | _ => l

/-- Finish the embedding of Rust `str::lines`: every group but the last was
terminated by `\n` and has a trailing `\r` stripped; a final empty group
(trailing newline) is dropped. -/
def rustLinesAux : List (List Char) → List (List Char)
  | [] => []
  | [last] => if last.isEmpty then [] else [last]
  | p :: q :: rest => stripCR p :: rustLinesAux (q :: rest)

/-- Embedding of Rust `str::lines`. -/
def rustLines (s : String) : List String :=
  (rustLinesAux (splitOnNewline s.data)).map (fun l => ⟨l⟩)

/-- Embedding of Rust `str::split_once` on `String`s. -/
def splitOnceStr (s pat : String) : Option (String × String) :=
  match splitOnceList pat.data s.data with
  | some (x, y) => some (⟨x⟩, ⟨y⟩)
  | Option.none => Option.none

/-- Embedding of Rust `[T]::join(sep)` for strings. -/
def rustJoin (sep : String) : List String → String
  | [] => ""
  | [a] => a
  | a :: b :: rest => a ++ sep ++ rustJoin sep (b :: rest)

/-- Embedding of Rust `str::parse::<uN>()` (unsigned decimal with an optional
leading `+`, rejecting values of `bound` or above). -/
def rustParseUInt (bound : Nat) (s : String) : Option Nat :=
  let l := match s.data with
    | '+' :: t => t
    | t => t
  if !l.isEmpty && l.all Char.isDigit then
    let v := l.foldl (fun a c => a * 10 + (c.toNat - 48)) 0
    if v < bound then some v else Option.none
  else Option.none

/-! ### `src/model.rs`: states, units, environments -/

/-- State of a unit (`model.rs`, `enum State`). -/
inductive State where
  | None
  | Starting
  | Building
  | Running
  | Ready
  | Failed
  | Stopped
  | Other (raw : String)
deriving DecidableEq, Repr

/-- `State::parse` from `model.rs`. -/
def State.parse (s : String) : State :=
  match s with
  | "starting" => State.Starting
  | "building" => State.Building
  | "running" => State.Running
  | "ready" => State.Ready
  | "failed" => State.Failed
  | "stopped" => State.Stopped
  | _ => State.Other s

/-- The `fmt::Display` implementation for `State` in `model.rs`. -/
def State.display : State → String
  | State.None => ""
  | State.Starting => "starting"
  | State.Building => "building"
  | State.Running => "running"
  | State.Ready => "ready"
  | State.Failed => "failed"
  | State.Stopped => "stopped"
  | State.Other s => s

/-- Status of a single named unit (`model.rs`, `struct UnitStatus`). -/
structure UnitStatus where
  name : String
  state : State
  detail : Option String
deriving DecidableEq, Repr

/-- `UnitStatus::parse` from `model.rs`: trim the content, empty content is
state `None`, otherwise split once on `": "` into state token and detail. -/
def UnitStatus.parse (name : String) (content : String) : UnitStatus :=
  let trimmed : List Char := trimList content.data
  if trimmed.isEmpty then
    { name := name, state := State.None, detail := Option.none }
  else
    match splitOnceStr ⟨trimmed⟩ ": " with
    | some (s, d) => { name := name, state := State.parse s, detail := some d }
    | Option.none => { name := name, state := State.parse ⟨trimmed⟩, detail := Option.none }

/-- A registered environment instance (`model.rs`, `struct Environment`).
`dir` (a `PathBuf` in the source) is modelled as a string. -/
structure Environment where
  id : String
  dir : String
  pid : Nat
  ports : List (String × Nat)
  started : Nat
  alive : Bool
  units : List UnitStatus
deriving DecidableEq, Repr

/-! ### `src/model.rs`: meta-file parsing and registry scanning.
The registry directory is modelled as a list of (filename, content) pairs;
the liveness probe (`signal::kill(pid, None)` succeeding) is an oracle. -/

/-- One file of the registry directory. -/
structure FsEntry where
  name : String
  content : String
deriving DecidableEq, Repr

/-- `fs::read_to_string` within the modelled directory listing. -/
def readFile (fs : List FsEntry) (name : String) : Option String :=
  match fs with
  | [] => Option.none
  | e :: t => if e.name = name then some e.content else readFile t name

/-- Accumulator for the `KEY=VALUE` scan of `Environment::load`. -/
structure MetaAcc where
  dir : Option String
  pid : Option Nat
  ports : List (String × Nat)
  started : Option Nat
deriving DecidableEq, Repr

/-- `HashMap::insert` on the ports map (replace the binding if present). -/
def insertPort (m : List (String × Nat)) (k : String) (v : Nat) : List (String × Nat) :=
  match m with
  | [] => [(k, v)]
  | (k1, v1) :: t => if k1 = k then (k, v) :: t else (k1, v1) :: insertPort t k v

/-- One iteration of the `for line in content.lines()` loop of
`Environment::load`: split on `=`, then dispatch on the key. -/
def parseMetaLine (acc : MetaAcc) (line : String) : MetaAcc :=
  match splitOnceStr line "=" with
  | Option.none => acc
  | some (key, value) =>
    if key = "DIR" then { acc with dir := some value }
    else if key = "PID" then { acc with pid := rustParseUInt (2 ^ 32) value }
    else if key = "STARTED" then { acc with started := rustParseUInt (2 ^ 64) value }
    else if "_PORT".data.isSuffixOf key.data then
      match rustParseUInt (2 ^ 16) value with
      | some port =>
        { acc with ports :=
            insertPort acc.ports (⟨key.data.take (key.data.length - 5)⟩ : String).toLower port }
      | Option.none => acc
    else acc

/-- The whole `KEY=VALUE` scan of a meta file's content. -/
def parseMeta (content : String) : MetaAcc :=
  (rustLines content).foldl parseMetaLine
    { dir := Option.none, pid := Option.none, ports := [], started := Option.none }

/-- The status-filename pattern match of `Environment::load`: strip the
prefix `<id>.` (new convention) or `.<id>.` (old convention). -/
def statusRest (id fname : String) : Option (List Char) :=
  match stripPrefixList (id.data ++ ('.' :: [])) fname.data with
  | some r => some r
  | Option.none => stripPrefixList ('.' :: (id.data ++ ('.' :: []))) fname.data

/-- The status-file scan of `Environment::load`: for every directory entry
matching `<id>.<unit>.status` (or the dot-prefixed legacy form) with a
non-empty unit name, parse its content as a `UnitStatus`. -/
def scanUnits (fs : List FsEntry) (id : String) : List UnitStatus :=
  fs.foldl
    (fun units e =>
      match statusRest id e.name with
      | Option.none => units
      | some rest =>
        match stripSuffixList rest ".status".data with
        | Option.none => units
        | some unitName =>
          if unitName.isEmpty then units
          else units ++ [UnitStatus.parse ⟨unitName⟩ e.content])
    []

/-- Stable insertion of `a` into a list sorted by the strict order `lt`
(matching Rust's stable `sort_by`). -/
def insertSorted (lt : α → α → Bool) (a : α) : List α → List α
  | [] => [a]
  | b :: t => if lt a b then a :: b :: t else b :: insertSorted lt a t

/-- Stable sort by a strict order (embedding of Rust `sort_by` via a
comparison key). -/
def sortBy (lt : α → α → Bool) : List α → List α
  | [] => []
  | a :: t => insertSorted lt a (sortBy lt t)

/-- `Environment::load` from `model.rs`: read the meta file, parse its
`KEY=VALUE` lines, require a parseable `PID` and a `DIR`, probe liveness,
and collect the sibling status files sorted by unit name. -/
def Environment.load (fs : List FsEntry) (aliveProbe : Nat → Bool)
    (metaName : String) : Option Environment :=
  match readFile fs metaName with
  | Option.none => Option.none
  | some content =>
    let id := metaName
    let acc := parseMeta content
    match acc.pid with
    | Option.none => Option.none
    | some pid =>
      let alive := if pid < 2 ^ 31 then aliveProbe pid else false
      let units := sortBy (fun a b => decide (a.name < b.name)) (scanUnits fs id)
      match acc.dir with
      | Option.none => Option.none
      | some dir =>
        some { id := id, dir := dir, pid := pid, ports := acc.ports,
               started := acc.started.getD 0, alive := alive, units := units }

/-- `is_meta_file` from `model.rs`: non-empty, not dot-prefixed, dot-free,
all hex digits. -/
def is_meta_file (name : String) : Bool :=
  !name.data.isEmpty
    && !startsWithDot name.data
    && !name.data.contains '.'
    && name.data.all isAsciiHexDigit

/-- `load_all` from `model.rs`: load every meta file of the directory and
sort the environments by working directory. -/
def load_all (fs : List FsEntry) (aliveProbe : Nat → Bool) : List Environment :=
  sortBy (fun a b => decide (a.dir < b.dir))
    (fs.filterMap (fun e =>
      if is_meta_file e.name then Environment.load fs aliveProbe e.name
      else Option.none))

/-! ### `src/notifications.rs`: the state-diff notification engine.
The mpsc channel to the audio thread is modelled by returning the (at most
one) enqueued `Action`; the macOS notification side effects are modelled by
returning the list of (title, body) pairs dispatched during the call. -/

/-- Action sent to the background audio/speech thread (`enum Action`). -/
inductive Action where
  | SoundAndSpeak (sound : String) (text : String)
  | Shutdown
deriving DecidableEq, Repr

/-- `unit_key` from `notifications.rs`: the composite key joins the two
parts with a NUL byte. -/
def unit_key (env_id : String) (unit_name : String) : String :=
  env_id ++ "\x00" ++ unit_name

/-- The engine's state (`struct Notifier`, minus the channel handles). -/
structure Notifier where
  global_mute : Bool
  muted_units : List String
  global_notifications_off : Bool
  notifications_off_units : List String
  prev_states : List ((String × String) × State)
  first_load : Bool
deriving DecidableEq, Repr

/-- `Notifier::new`: everything empty, `first_load` set. -/
def Notifier.new : Notifier :=
  { global_mute := false, muted_units := [], global_notifications_off := false,
    notifications_off_units := [], prev_states := [], first_load := true }

/-- `HashMap::insert` on the `(envId, unitName) → State` map. -/
def insertKV (m : List ((String × String) × State)) (k : String × String)
    (v : State) : List ((String × String) × State) :=
  match m with
  | [] => [(k, v)]
  | (k1, v1) :: t => if k1 = k then (k, v) :: t else (k1, v1) :: insertKV t k v

/-- `HashMap::get` on the `(envId, unitName) → State` map. -/
def lookupKV (m : List ((String × String) × State)) (k : String × String) :
    Option State :=
  match m with
  | [] => Option.none
  | (k1, v) :: t => if k1 = k then some v else lookupKV t k

/-- The snapshot-flattening loop of `Notifier::process` (step 1): build the
`(envId, unitName) → state` map from the scanned environments. -/
def insertUnits (envId : String) (units : List UnitStatus)
    (m : List ((String × String) × State)) : List ((String × String) × State) :=
  units.foldl (fun m u => insertKV m (envId, u.name) u.state) m

/-- Flatten a snapshot into the current-state map, as `process` does. -/
def buildCurrent (envs : List Environment) : List ((String × String) × State) :=
  envs.foldl (fun m env => insertUnits env.id env.units m) []

/-- `state_variant_eq` from `notifications.rs`: compare two states by
variant (`mem::discriminant`), with `Other` compared by its raw string. -/
def State.variantIdx : State → Nat
  | State.None => 0
  | State.Starting => 1
  | State.Building => 2
  | State.Running => 3
  | State.Ready => 4
  | State.Failed => 5
  | State.Stopped => 6
  | State.Other _ => 7

/-- `state_variant_eq` from `notifications.rs`. -/
def state_variant_eq (a b : State) : Bool :=
  match a, b with
  | State.Other x, State.Other y => x == y
  | _, _ => a.variantIdx == b.variantIdx

/-- `higher_priority_sound` from `notifications.rs`:
Basso (failed) > Ping (ready/running) > Submarine (building/starting). -/
def soundPriority (s : String) : Nat :=
  if s = "Basso" then 2 else if s = "Ping" then 1 else 0

/-- `higher_priority_sound` from `notifications.rs`. -/
def higher_priority_sound (a b : String) : String :=
  if soundPriority b > soundPriority a then b else a

/-- The `(sound, speech)` resolution of `process` for one transition,
keyed by the destination state. -/
def soundSpeech (unitName : String) (new_state : State) :
    Option String × Option String :=
  match new_state with
  | State.None => (Option.none, Option.none)
  | State.Other _ => (Option.none, Option.none)
  | State.Stopped => (Option.none, Option.none)
  | State.Building => (some "Submarine", some (unitName ++ " " ++ State.display new_state))
  | State.Starting => (some "Submarine", some (unitName ++ " " ++ State.display new_state))
  | State.Ready => (some "Ping", some (unitName ++ " " ++ State.display new_state))
  | State.Running => (some "Ping", some (unitName ++ " " ++ State.display new_state))
  | State.Failed => (some "Basso", some (unitName ++ " " ++ State.display new_state))

/-- Accumulator of the diff loop of `process`: the batched speech phrases,
the best sound so far, and the notifications dispatched so far. -/
structure ScanAcc where
  batched_speeches : List String
  best_sound : Option String
  notifs : List (String × String)
deriving DecidableEq, Repr

/-- One iteration of the diff loop of `Notifier::process` (steps 3-7):
detect the transition, resolve sound/speech, dispatch the individual
notification unless suppressed, then batch speech unless muted. -/
def processEntry (n : Notifier) (acc : ScanAcc)
    (kv : (String × String) × State) : ScanAcc :=
  let key := kv.1
  let new_state := kv.2
  let changed :=
    match lookupKV n.prev_states key with
    | some old_state => !state_variant_eq old_state new_state
    | Option.none => true
  if changed then
    match soundSpeech key.2 new_state with
    | (Option.none, _) => acc
    | (some sound, speech) =>
      let uk := unit_key key.1 key.2
      let notifications_off :=
        n.global_notifications_off || n.notifications_off_units.contains uk
      let acc1 :=
        if notifications_off then acc
        else { acc with notifs :=
                 acc.notifs ++ [("sutra — " ++ key.2, State.display new_state)] }
      if n.global_mute || n.muted_units.contains uk then acc1
      else
        match speech with
        | some text =>
          { acc1 with
            batched_speeches := acc1.batched_speeches ++ [text],
            best_sound := some
              (match acc1.best_sound with
               | Option.none => sound
               | some prev => higher_priority_sound prev sound) }
        | Option.none => acc1
  else acc

/-- Result of one `process` call: the updated engine, the (at most one)
action enqueued to the alert worker, and the notifications dispatched. -/
structure ProcessResult where
  notifier : Notifier
  action : Option Action
  notified : List (String × String)
deriving DecidableEq, Repr

/-- `Notifier::process` from `notifications.rs`. -/
def Notifier.process (n : Notifier) (envs : List Environment) : ProcessResult :=
  let current := buildCurrent envs
  if n.first_load then
    { notifier := { n with prev_states := current, first_load := false },
      action := Option.none, notified := [] }
  else
    let acc := current.foldl (processEntry n)
      { batched_speeches := [], best_sound := Option.none, notifs := [] }
    let action : Option Action :=
      match acc.best_sound with
      | some sound =>
        if acc.batched_speeches.isEmpty then Option.none
        else some (Action.SoundAndSpeak sound (rustJoin ", " acc.batched_speeches))
      | Option.none => Option.none
    { notifier := { n with prev_states := current }, action := action,
      notified := acc.notifs }

/-- `Notifier::toggle_global_mute`. -/
def Notifier.toggle_global_mute (n : Notifier) : Notifier :=
  { n with global_mute := !n.global_mute }

/-- `Notifier::toggle_unit_mute`: remove the key from the set if present,
otherwise insert it. -/
def Notifier.toggle_unit_mute (n : Notifier) (env_id unit_name : String) : Notifier :=
  let key := unit_key env_id unit_name
  if n.muted_units.contains key then
    { n with muted_units := n.muted_units.erase key }
  else
    { n with muted_units := key :: n.muted_units }

/-- `Notifier::is_unit_muted`. -/
def Notifier.is_unit_muted (n : Notifier) (env_id unit_name : String) : Bool :=
  n.muted_units.contains (unit_key env_id unit_name)

/-- `Notifier::toggle_global_notifications`. -/
def Notifier.toggle_global_notifications (n : Notifier) : Notifier :=
  { n with global_notifications_off := !n.global_notifications_off }

/-- `Notifier::toggle_unit_notifications`. -/
def Notifier.toggle_unit_notifications (n : Notifier) (env_id unit_name : String) :
    Notifier :=
  let key := unit_key env_id unit_name
  if n.notifications_off_units.contains key then
    { n with notifications_off_units := n.notifications_off_units.erase key }
  else
    { n with notifications_off_units := key :: n.notifications_off_units }

/-- `Notifier::is_unit_notifications_off`. -/
def Notifier.is_unit_notifications_off (n : Notifier) (env_id unit_name : String) :
    Bool :=
  n.notifications_off_units.contains (unit_key env_id unit_name)

/-! ### `src/watcher.rs`: the filesystem watch bridge.
A raw filesystem event is modelled by its kind and the changed path's
filename (the source only ever inspects `path.file_name()`). -/

/-- Events emitted by the registry watcher (`enum WatchEvent`). -/
inductive WatchEvent where
  | EnvironmentChanged (id : String)
  | EnvironmentRemoved (id : String)
deriving DecidableEq, Repr

/-- The kinds of raw filesystem events the bridge distinguishes
(`notify::EventKind`; everything besides create/modify/remove is lumped
into `Access`, matching the source's catch-all arm). -/
inductive EventKind where
  | Create
  | Modify
  | Remove
  | Access
deriving DecidableEq, Repr

/-- `extract_hash_id` from `watcher.rs`: for `<hash>.<unit>.status` (with
an optional legacy leading dot) return the hex hash; for a bare dot-free
hex filename return it whole; otherwise nothing. -/
def extract_hash_id (fname : String) : Option String :=
  match stripSuffixList fname.data ".status".data with
  | some rest0 =>
    let rest :=
      match stripPrefixList ('.' :: []) rest0 with
      | some r => r
      | Option.none => rest0
    match splitOnceList ('.' :: []) rest with
    | some (hash, _) =>
      if !hash.isEmpty && hash.all isAsciiHexDigit then some ⟨hash⟩
      else Option.none
    | Option.none => Option.none
  | Option.none =>
    if !startsWithDot fname.data
        && !fname.data.contains '.'
        && !fname.data.isEmpty
        && fname.data.all isAsciiHexDigit then
      some fname
    else Option.none

/-- The per-path body of the watch callback in `RegistryWatcher::new`:
extract the id, then map the event kind. -/
def mapEvent (kind : EventKind) (fname : String) : Option WatchEvent :=
  match extract_hash_id fname with
  | Option.none => Option.none
  | some id =>
    match kind with
    | EventKind.Remove => some (WatchEvent.EnvironmentRemoved id)
    | EventKind.Create => some (WatchEvent.EnvironmentChanged id)
    | EventKind.Modify => some (WatchEvent.EnvironmentChanged id)
    | EventKind.Access => Option.none

/-! ### Auxiliary definitions used by the theorem statements -/

/-- The destination states that never produce a sound/speech alert in
`process` (`None`, `Other(_)`, `Stopped`). -/
def silentState : State → Bool
  | State.None => true
  | State.Stopped => true
  | State.Other _ => true
  | _ => false

/-- Two unit lists with the same names and variant-equal states
(details may differ arbitrarily). -/
def unitsVariantEq : List UnitStatus → List UnitStatus → Bool
  | [], [] => true
  | u :: us, v :: vs =>
    (u.name == v.name) && state_variant_eq u.state v.state && unitsVariantEq us vs
  | _, _ => false

/-- Two snapshots with the same environment ids and, unit by unit, the same
names and variant-equal states: they differ at most in `detail` fields (and
in fields the diff never reads). -/
def snapshotVariantEq : List Environment → List Environment → Bool
  | [], [] => true
  | a :: l1, b :: l2 =>
    (a.id == b.id) && unitsVariantEq a.units b.units && snapshotVariantEq l1 l2
  | _, _ => false

/-- The notifications contributed by one diff-loop iteration (used to state
that notification dispatch is independent of the sound-mute settings). -/
def notifContribution (n : Notifier) (kv : (String × String) × State) :
    List (String × String) :=
  let changed :=
    match lookupKV n.prev_states kv.1 with
    | some old_state => !state_variant_eq old_state kv.2
    | Option.none => true
  if changed then
    match soundSpeech kv.1.2 kv.2 with
    | (Option.none, _) => []
    | (some _, _) =>
      if n.global_notifications_off
          || n.notifications_off_units.contains (unit_key kv.1.1 kv.1.2) then []
      else [("sutra — " ++ kv.1.2, State.display kv.2)]
  else []

/-- Spec-side statement of the (amended) watch-bridge mapping rule, for the
part applying after the `.status` suffix and one optional leading dot were
removed: if the remainder contains a dot, the characters before the first
dot form the id provided they are non-empty and all hex. -/
def ruleStatusId (l : List Char) : Option (List Char) :=
  if l.contains '.' then
    let hash := l.takeWhile (fun c => !(c == '.'))
    if hash.length > 0 && hash.all isAsciiHexDigit then some hash else Option.none
  else Option.none

/-- Spec-side statement of the (amended) watch-bridge id-extraction rule:
a filename ending in `.status` goes through `ruleStatusId` after stripping
the suffix and one optional leading dot; any other filename is an id iff it
is non-empty, does not start with a dot, contains no dot, and is all hex. -/
def ruleExtract (fname : String) : Option String :=
  let l := fname.data
  if l.length ≥ 7 ∧ l.drop (l.length - 7) = ".status".data then
    let body := l.take (l.length - 7)
    let body1 := if body.head? = some '.' then body.tail else body
    (ruleStatusId body1).map (fun h => (⟨h⟩ : String))
  else
    if l ≠ [] ∧ l.head? ≠ some '.' ∧ ¬ l.contains '.' = true ∧ l.all isAsciiHexDigit then
      some fname
    else Option.none

/-- Spec-side statement of the (amended) watch-bridge event mapping:
removals map the extracted id to `EnvironmentRemoved`, creations and
modifications to `EnvironmentChanged`, anything else is dropped. -/
def ruleMapEvent (kind : EventKind) (fname : String) : Option WatchEvent :=
  match kind with
  | EventKind.Remove => (ruleExtract fname).map WatchEvent.EnvironmentRemoved
  | EventKind.Create => (ruleExtract fname).map WatchEvent.EnvironmentChanged
  | EventKind.Modify => (ruleExtract fname).map WatchEvent.EnvironmentChanged
  | EventKind.Access => Option.none

/-! ### Basic lemmas about the diff engine -/

lemma state_variant_eq_self (s : State) : state_variant_eq s s = true := by
  cases s <;> simp [state_variant_eq, State.variantIdx]

lemma state_variant_eq_true_iff (a b : State) :
    state_variant_eq a b = true ↔ a = b := by
  cases a <;> cases b <;> simp [state_variant_eq, State.variantIdx]

lemma mem_keys_insertKV {m : List ((String × String) × State)}
    {k a : String × String} {v : State}
    (h : a ∈ (insertKV m k v).map Prod.fst) : a = k ∨ a ∈ m.map Prod.fst := by
  induction m with
  | nil => simpa [insertKV] using h
  | cons p t ih =>
    obtain ⟨k1, v1⟩ := p
    simp only [insertKV] at h
    by_cases hk : k1 = k
    · rw [if_pos hk, List.map_cons] at h
      rcases List.mem_cons.mp h with rfl | h
      · exact Or.inl rfl
      · exact Or.inr (by rw [List.map_cons]; exact List.mem_cons_of_mem _ h)
    · rw [if_neg hk, List.map_cons] at h
      rcases List.mem_cons.mp h with rfl | h
      · exact Or.inr (by rw [List.map_cons]; exact List.mem_cons_self _ _)
      · rcases ih h with h | h
        · exact Or.inl h
        · exact Or.inr (by rw [List.map_cons]; exact List.mem_cons_of_mem _ h)

lemma keys_nodup_insertKV {m : List ((String × String) × State)}
    {k : String × String} {v : State}
    (h : (m.map Prod.fst).Nodup) : ((insertKV m k v).map Prod.fst).Nodup := by
  induction m with
  | nil => simp [insertKV]
  | cons p t ih =>
    obtain ⟨k1, v1⟩ := p
    simp only [List.map_cons, List.nodup_cons] at h
    by_cases hk : k1 = k
    · subst hk
      simpa [insertKV] using h
    · simp only [insertKV, if_neg hk, List.map_cons, List.nodup_cons]
      refine ⟨?_, ih h.2⟩
      intro hmem
      rcases mem_keys_insertKV hmem with rfl | hmem
      · exact hk rfl
      · exact h.1 hmem

lemma lookupKV_self {m : List ((String × String) × State)}
    (h : (m.map Prod.fst).Nodup) {kv : (String × String) × State} (hm : kv ∈ m) :
    lookupKV m kv.1 = some kv.2 := by
  induction m with
  | nil => cases hm
  | cons p t ih =>
    obtain ⟨k1, v1⟩ := p
    simp only [List.map_cons, List.nodup_cons] at h
    rcases List.mem_cons.mp hm with rfl | hm
    · simp [lookupKV]
    · have hne : k1 ≠ kv.1 := by
        intro he
        exact h.1 (he ▸ List.mem_map_of_mem Prod.fst hm)
      simp only [lookupKV, if_neg hne]
      exact ih h.2 hm

lemma keys_nodup_insertUnits {envId : String} {units : List UnitStatus}
    {m : List ((String × String) × State)}
    (h : (m.map Prod.fst).Nodup) : ((insertUnits envId units m).map Prod.fst).Nodup := by
  induction units generalizing m with
  | nil => exact h
  | cons u us ih => exact ih (keys_nodup_insertKV h)

lemma keys_nodup_buildCurrent (envs : List Environment) :
    ((buildCurrent envs).map Prod.fst).Nodup := by
  have base : ∀ (l : List Environment) (m : List ((String × String) × State)),
      (m.map Prod.fst).Nodup →
      ((l.foldl (fun m env => insertUnits env.id env.units m) m).map Prod.fst).Nodup := by
    intro l
    induction l with
    | nil => intro m hm; exact hm
    | cons env t ih => intro m hm; exact ih _ (keys_nodup_insertUnits hm)
  exact base envs [] (by simp)

lemma processEntry_self (n : Notifier) (acc : ScanAcc)
    (kv : (String × String) × State)
    (h : lookupKV n.prev_states kv.1 = some kv.2) :
    processEntry n acc kv = acc := by
  simp [processEntry, h, state_variant_eq_self]

lemma foldl_processEntry_skip (n : Notifier)
    (l : List ((String × String) × State)) (acc : ScanAcc)
    (h : ∀ kv ∈ l, lookupKV n.prev_states kv.1 = some kv.2) :
    l.foldl (processEntry n) acc = acc := by
  induction l generalizing acc with
  | nil => rfl
  | cons kv t ih =>
    rw [List.foldl_cons, processEntry_self n acc kv (h kv (by simp))]
    exact ih _ (fun x hx => h x (by simp [hx]))

lemma no_refire_core (n : Notifier) (envs : List Environment)
    (hprev : n.prev_states = buildCurrent envs)
    (hfl : n.first_load = false) : (n.process envs).action = Option.none := by
  have hskip : ∀ kv ∈ buildCurrent envs, lookupKV n.prev_states kv.1 = some kv.2 := by
    intro kv hkv
    rw [hprev]
    exact lookupKV_self (keys_nodup_buildCurrent envs) hkv
  simp only [Notifier.process, hfl, if_neg Bool.false_ne_true,
    foldl_processEntry_skip n _ _ hskip]

lemma mem_insertKV {m : List ((String × String) × State)}
    {k : String × String} {v : State} {kv : (String × String) × State}
    (h : kv ∈ insertKV m k v) : kv = (k, v) ∨ kv ∈ m := by
  induction m with
  | nil => simpa [insertKV] using h
  | cons p t ih =>
    obtain ⟨k1, v1⟩ := p
    simp only [insertKV] at h
    by_cases hk : k1 = k
    · rw [if_pos hk] at h
      rcases List.mem_cons.mp h with rfl | h
      · exact Or.inl rfl
      · exact Or.inr (List.mem_cons_of_mem _ h)
    · rw [if_neg hk] at h
      rcases List.mem_cons.mp h with rfl | h
      · exact Or.inr (List.mem_cons_self _ _)
      · rcases ih h with h | h
        · exact Or.inl h
        · exact Or.inr (List.mem_cons_of_mem _ h)

lemma mem_insertUnits {envId : String} {units : List UnitStatus}
    {m : List ((String × String) × State)} {kv : (String × String) × State}
    (h : kv ∈ insertUnits envId units m) :
    (∃ u ∈ units, kv = ((envId, u.name), u.state)) ∨ kv ∈ m := by
  induction units generalizing m with
  | nil => exact Or.inr h
  | cons u us ih =>
    rcases ih h with ⟨w, hw, rfl⟩ | h
    · exact Or.inl ⟨w, List.mem_cons_of_mem _ hw, rfl⟩
    · rcases mem_insertKV h with rfl | h
      · exact Or.inl ⟨u, List.mem_cons_self _ _, rfl⟩
      · exact Or.inr h

lemma mem_buildCurrent {envs : List Environment} {kv : (String × String) × State}
    (h : kv ∈ buildCurrent envs) :
    ∃ env ∈ envs, ∃ u ∈ env.units, kv = ((env.id, u.name), u.state) := by
  have base : ∀ (l : List Environment) (m : List ((String × String) × State)),
      kv ∈ l.foldl (fun m env => insertUnits env.id env.units m) m →
      (∃ env ∈ l, ∃ u ∈ env.units, kv = ((env.id, u.name), u.state)) ∨ kv ∈ m := by
    intro l
    induction l with
    | nil => intro m hm; exact Or.inr hm
    | cons env t ih =>
      intro m hm
      rcases ih _ hm with ⟨e, he, hu⟩ | hm
      · exact Or.inl ⟨e, List.mem_cons_of_mem _ he, hu⟩
      · rcases mem_insertUnits hm with ⟨u, hu, rfl⟩ | hm
        · exact Or.inl ⟨env, List.mem_cons_self _ _, u, hu, rfl⟩
        · exact Or.inr hm
  rcases base envs [] h with h | h
  · exact h
  · cases h

lemma processEntry_silent (n : Notifier) (acc : ScanAcc)
    (kv : (String × String) × State) (h : silentState kv.2 = true) :
    processEntry n acc kv = acc := by
  obtain ⟨k, s⟩ := kv
  cases s <;> simp_all [processEntry, soundSpeech, silentState]

lemma foldl_processEntry_silent (n : Notifier)
    (l : List ((String × String) × State)) (acc : ScanAcc)
    (h : ∀ kv ∈ l, silentState kv.2 = true) :
    l.foldl (processEntry n) acc = acc := by
  induction l generalizing acc with
  | nil => rfl
  | cons kv t ih =>
    rw [List.foldl_cons, processEntry_silent n acc kv (h kv (by simp))]
    exact ih _ (fun x hx => h x (by simp [hx]))

/-! ### Claim theorems -/

/-- C2: on a freshly constructed engine, the first call to `process`
enqueues no alert action and dispatches no notification, whatever the
snapshot holds; it only seeds `prev_states` with the flattened snapshot and
clears the first-load flag. -/
theorem first_process_silent (envs : List Environment) :
    (Notifier.new.process envs).action = Option.none ∧
    (Notifier.new.process envs).notified = [] ∧
    (Notifier.new.process envs).notifier.prev_states = buildCurrent envs ∧
    (Notifier.new.process envs).notifier.first_load = false := by
  simp [Notifier.process, Notifier.new]

/-- C9: parsing empty or whitespace-only status content yields state `None`
with no detail; display after parse reproduces each of the six recognized
labels exactly; and displaying `Other(s)` reproduces the raw string `s`. -/
theorem status_parse_roundtrip :
    (∀ (name content : String), trimList content.data = [] →
      UnitStatus.parse name content =
        { name := name, state := State.None, detail := Option.none }) ∧
    State.display (State.parse "starting") = "starting" ∧
    State.display (State.parse "building") = "building" ∧
    State.display (State.parse "running") = "running" ∧
    State.display (State.parse "ready") = "ready" ∧
    State.display (State.parse "failed") = "failed" ∧
    State.display (State.parse "stopped") = "stopped" ∧
    (∀ raw : String, State.display (State.Other raw) = raw) := by
  refine ⟨?_, rfl, rfl, rfl, rfl, rfl, rfl, fun raw => rfl⟩
  intro name content h
  simp [UnitStatus.parse, h]

/-- Witness for C9: a whitespace-only status file parses to `None` with no
detail. -/
theorem status_parse_roundtrip_witness :
    UnitStatus.parse "server" " \n " =
      { name := "server", state := State.None, detail := Option.none } :=
  status_parse_roundtrip.1 "server" " \n " (by decide)

/-- C10: mute preferences address units by the single string key
`envId ++ NUL ++ unitName`, so two distinct (envId, unitName) pairs with
the same joined encoding share one mute flag. -/
theorem unit_key_collision :
    unit_key "a\x00b" "c" = unit_key "a" "b\x00c" ∧
    ("a\x00b", "c") ≠ ("a", "b\x00c") ∧
    (Notifier.new.toggle_unit_mute "a\x00b" "c").is_unit_muted "a" "b\x00c" = true := by
  decide

/-- C3: when every unit of the snapshot currently sits in a silent
destination state (`Stopped`, `None` or `Other(_)`), `process` enqueues no
sound/speech action and dispatches no notification either, regardless of
previous states and of all mute/notification settings. -/
theorem silent_destination_no_alert (n : Notifier) (envs : List Environment)
    (h : ∀ env ∈ envs, ∀ u ∈ env.units, silentState u.state = true) :
    (n.process envs).action = Option.none ∧ (n.process envs).notified = [] := by
  have hall : ∀ kv ∈ buildCurrent envs, silentState kv.2 = true := by
    intro kv hkv
    obtain ⟨env, henv, u, hu, rfl⟩ := mem_buildCurrent hkv
    exact h env henv u hu
  cases hfl : n.first_load
  · constructor <;>
      simp only [Notifier.process, hfl, if_neg Bool.false_ne_true,
        foldl_processEntry_silent n _ _ hall]
  · constructor <;> simp [Notifier.process, hfl]

/-- Witness for C3: a unit transitioning into `Stopped` on an unmuted,
past-first-load engine produces neither an action nor a notification. -/
theorem silent_destination_no_alert_witness :
    (Notifier.process
        { global_mute := false, muted_units := [], global_notifications_off := false,
          notifications_off_units := [],
          prev_states := [(("e", "u"), State.Running)], first_load := false }
        [{ id := "e", dir := "/d", pid := 1, ports := [], started := 0, alive := true,
           units := [{ name := "u", state := State.Stopped, detail := Option.none }] }]).action
      = Option.none :=
  (silent_destination_no_alert _ _ (by decide)).1

/-- C4: after a non-first `process(S)`, `prev_states` equals the flattened
snapshot map of `S` unconditionally (whether or not anything fired), and an
immediately repeated `process(S)` enqueues no alert action. -/
theorem process_replaces_prev_and_never_refires (n : Notifier)
    (envs : List Environment) (hfl : n.first_load = false) :
    (n.process envs).notifier.prev_states = buildCurrent envs ∧
    ((n.process envs).notifier.process envs).action = Option.none := by
  have hnot : (n.process envs).notifier = { n with prev_states := buildCurrent envs } := by
    simp [Notifier.process, hfl]
  refine ⟨by rw [hnot], ?_⟩
  rw [hnot]
  exact no_refire_core _ envs rfl hfl

/-- Witness for C4: a transition fires once, and rescanning the identical
snapshot fires nothing. -/
theorem process_replaces_prev_and_never_refires_witness :
    ((Notifier.process
        { global_mute := false, muted_units := [], global_notifications_off := false,
          notifications_off_units := [], prev_states := [], first_load := false }
        [{ id := "e", dir := "/d", pid := 1, ports := [], started := 0, alive := true,
           units := [{ name := "u", state := State.Failed, detail := Option.none }] }]).notifier.process
        [{ id := "e", dir := "/d", pid := 1, ports := [], started := 0, alive := true,
           units := [{ name := "u", state := State.Failed, detail := Option.none }] }]).action
      = Option.none :=
  (process_replaces_prev_and_never_refires _ _ rfl).2

lemma insertUnits_congr {envId : String} {us vs : List UnitStatus}
    (h : unitsVariantEq us vs = true) (m : List ((String × String) × State)) :
    insertUnits envId us m = insertUnits envId vs m := by
  induction us generalizing vs m with
  | nil => cases vs with
    | nil => rfl
    | cons v vs => simp [unitsVariantEq] at h
  | cons u us ih =>
    cases vs with
    | nil => simp [unitsVariantEq] at h
    | cons v vs =>
      simp only [unitsVariantEq, Bool.and_eq_true, beq_iff_eq] at h
      obtain ⟨⟨hname, hstate⟩, htail⟩ := h
      have hstate := (state_variant_eq_true_iff _ _).mp hstate
      show insertUnits envId us (insertKV m (envId, u.name) u.state)
        = insertUnits envId vs (insertKV m (envId, v.name) v.state)
      rw [hname, hstate]
      exact ih htail _

lemma buildCurrent_congr {e1 e2 : List Environment}
    (h : snapshotVariantEq e1 e2 = true) : buildCurrent e1 = buildCurrent e2 := by
  have base : ∀ (l1 l2 : List Environment), snapshotVariantEq l1 l2 = true →
      ∀ m, l1.foldl (fun m env => insertUnits env.id env.units m) m
        = l2.foldl (fun m env => insertUnits env.id env.units m) m := by
    intro l1
    induction l1 with
    | nil => intro l2 h m; cases l2 with
      | nil => rfl
      | cons b bs => simp [snapshotVariantEq] at h
    | cons a t ih =>
      intro l2 h m
      cases l2 with
      | nil => simp [snapshotVariantEq] at h
      | cons b bs =>
        simp only [snapshotVariantEq, Bool.and_eq_true, beq_iff_eq] at h
        obtain ⟨⟨hid, hunits⟩, htail⟩ := h
        show t.foldl _ (insertUnits a.id a.units m) = bs.foldl _ (insertUnits b.id b.units m)
        rw [hid, insertUnits_congr hunits]
        exact ih bs htail _
  exact base e1 e2 h []

/-- C6: if a second snapshot differs from the first only in unit details
(same environment ids, same unit names, variant-equal states — `Other`
compared by its exact raw string), then processing the second snapshot
right after the first enqueues no alert action: the diff compares state
kinds only and ignores `detail`. -/
theorem detail_only_change_no_alert (n : Notifier) (envs1 envs2 : List Environment)
    (h : snapshotVariantEq envs1 envs2 = true) :
    ((n.process envs1).notifier.process envs2).action = Option.none := by
  have hprev : (n.process envs1).notifier.prev_states = buildCurrent envs1 := by
    cases hfl : n.first_load <;> simp [Notifier.process, hfl]
  have hfl1 : (n.process envs1).notifier.first_load = false := by
    cases hfl : n.first_load <;> simp [Notifier.process, hfl]
  exact no_refire_core _ envs2 (hprev.trans (buildCurrent_congr h)) hfl1

/-- Witness for C6: only the `detail` of a `Failed` unit changes between
two scans; the second `process` stays silent. -/
theorem detail_only_change_no_alert_witness :
    ((Notifier.new.process
        [{ id := "e", dir := "/d", pid := 1, ports := [], started := 0, alive := true,
           units := [{ name := "u", state := State.Failed, detail := some "x" }] }]).notifier.process
        [{ id := "e", dir := "/d", pid := 1, ports := [], started := 0, alive := true,
           units := [{ name := "u", state := State.Failed, detail := some "y" }] }]).action
      = Option.none :=
  detail_only_change_no_alert _ _ _ (by decide)

lemma processEntry_notifs (n : Notifier) (acc : ScanAcc)
    (kv : (String × String) × State) :
    (processEntry n acc kv).notifs = acc.notifs ++ notifContribution n kv := by
  obtain ⟨key, st⟩ := kv
  simp only [processEntry, notifContribution]
  split <;> rename_i hch
  · split <;> rename_i hfst hss
    · simp
    · split <;> rename_i hmute
      · split <;> simp
      · split <;> split <;> simp
  · simp

lemma processEntry_mute (n : Notifier) (h : n.global_mute = true) (acc : ScanAcc)
    (kv : (String × String) × State) :
    (processEntry n acc kv).best_sound = acc.best_sound ∧
    (processEntry n acc kv).batched_speeches = acc.batched_speeches := by
  obtain ⟨key, st⟩ := kv
  constructor <;>
  · simp only [processEntry, h, Bool.true_or, eq_self_iff_true, if_true]
    split
    · split
      · rfl
      · split <;> rfl
    · rfl

lemma foldl_processEntry_mute (n : Notifier) (h : n.global_mute = true)
    (l : List ((String × String) × State)) (acc : ScanAcc) :
    (l.foldl (processEntry n) acc).best_sound = acc.best_sound := by
  induction l generalizing acc with
  | nil => rfl
  | cons kv t ih =>
    rw [List.foldl_cons]
    exact (ih _).trans (processEntry_mute n h acc kv).1

lemma foldl_processEntry_notifs_invariant (n : Notifier) (b : Bool)
    (l : List ((String × String) × State)) (acc acc' : ScanAcc)
    (hn : acc.notifs = acc'.notifs) :
    (l.foldl (processEntry n) acc).notifs
      = (l.foldl (processEntry { n with global_mute := b }) acc').notifs := by
  induction l generalizing acc acc' with
  | nil => exact hn
  | cons kv t ih =>
    rw [List.foldl_cons, List.foldl_cons]
    exact ih _ _ (by rw [processEntry_notifs, processEntry_notifs, hn]; rfl)

/-- C5: while `global_mute` is set, `process` enqueues no sound/speech
action, yet dispatches exactly the notifications it would dispatch with
`global_mute` clear (dispatch is independent of sound muting); and toggling
`global_mute` twice restores the engine, so sound alerts resume. -/
theorem global_mute_suppresses_sound_not_notifications (n : Notifier)
    (envs : List Environment) (h : n.global_mute = true) :
    (n.process envs).action = Option.none ∧
    (n.process envs).notified
      = (Notifier.process { n with global_mute := false } envs).notified ∧
    n.toggle_global_mute.toggle_global_mute = n := by
  have htoggle : n.toggle_global_mute.toggle_global_mute = n := by
    cases n
    simp [Notifier.toggle_global_mute]
  have hfl2 : ({ n with global_mute := false } : Notifier).first_load = n.first_load := rfl
  cases hfl : n.first_load
  · refine ⟨?_, ?_, htoggle⟩
    · simp only [Notifier.process, hfl, if_neg Bool.false_ne_true]
      rw [foldl_processEntry_mute n h]
    · simp only [Notifier.process, hfl, hfl2, if_neg Bool.false_ne_true]
      exact foldl_processEntry_notifs_invariant n false _ _ _ rfl
  · refine ⟨?_, ?_, htoggle⟩
    · simp [Notifier.process, hfl]
    · simp [Notifier.process, hfl, hfl2]

/-- Witness for C5: a muted engine seeing `Running → Failed` enqueues
nothing but notifies exactly as the unmuted engine would. -/
theorem global_mute_suppresses_sound_not_notifications_witness :
    (Notifier.process
        { global_mute := true, muted_units := [], global_notifications_off := false,
          notifications_off_units := [],
          prev_states := [(("e", "u"), State.Running)], first_load := false }
        [{ id := "e", dir := "/d", pid := 1, ports := [], started := 0, alive := true,
           units := [{ name := "u", state := State.Failed, detail := Option.none }] }]).action
      = Option.none ∧
    (Notifier.process
        { global_mute := true, muted_units := [], global_notifications_off := false,
          notifications_off_units := [],
          prev_states := [(("e", "u"), State.Running)], first_load := false }
        [{ id := "e", dir := "/d", pid := 1, ports := [], started := 0, alive := true,
           units := [{ name := "u", state := State.Failed, detail := Option.none }] }]).notified
      = (Notifier.process
          { global_mute := false, muted_units := [], global_notifications_off := false,
            notifications_off_units := [],
            prev_states := [(("e", "u"), State.Running)], first_load := false }
          [{ id := "e", dir := "/d", pid := 1, ports := [], started := 0, alive := true,
             units := [{ name := "u", state := State.Failed, detail := Option.none }] }]).notified ∧
    Notifier.toggle_global_mute
        (Notifier.toggle_global_mute
          { global_mute := true, muted_units := [], global_notifications_off := false,
            notifications_off_units := [],
            prev_states := [(("e", "u"), State.Running)], first_load := false })
      = { global_mute := true, muted_units := [], global_notifications_off := false,
          notifications_off_units := [],
          prev_states := [(("e", "u"), State.Running)], first_load := false } :=
  global_mute_suppresses_sound_not_notifications _ _ rfl

lemma processEntry_fires (n : Notifier) (acc : ScanAcc) (key : String × String)
    (st : State) (sound text : String)
    (hch : (match lookupKV n.prev_states key with
            | some old_state => !state_variant_eq old_state st
            | Option.none => true) = true)
    (hss : soundSpeech key.2 st = (some sound, some text))
    (hmute : (n.global_mute || n.muted_units.contains (unit_key key.1 key.2)) = false) :
    (processEntry n acc (key, st)).batched_speeches = acc.batched_speeches ++ [text] ∧
    (processEntry n acc (key, st)).best_sound
      = some (match acc.best_sound with
              | Option.none => sound
              | some prev => higher_priority_sound prev sound) := by
  constructor <;>
  · simp only [processEntry, hch, if_true, hss, hmute, Bool.false_eq_true, if_false,
      eq_self_iff_true, apply_ite ScanAcc.batched_speeches, apply_ite ScanAcc.best_sound,
      ite_self]

/-- C1: on an engine past its first load, if one diff cycle sees two
unmuted units transition to `Failed` and `Starting`, exactly one action is
enqueued to the worker: its sound is the `Failed`-priority category
(`Basso`) and its utterance is both units' phrases joined by the
separator. -/
theorem failed_and_starting_one_batched_alert
    (n : Notifier) (envId u1 u2 dir : String) (dt1 dt2 : Option String)
    (pid started : Nat) (ports : List (String × Nat)) (alive : Bool)
    (hfl : n.first_load = false)
    (hgm : n.global_mute = false)
    (hne : u1 ≠ u2)
    (hm1 : n.muted_units.contains (unit_key envId u1) = false)
    (hm2 : n.muted_units.contains (unit_key envId u2) = false)
    (hprev1 : ∀ old, lookupKV n.prev_states (envId, u1) = some old →
        state_variant_eq old State.Failed = false)
    (hprev2 : ∀ old, lookupKV n.prev_states (envId, u2) = some old →
        state_variant_eq old State.Starting = false) :
    (n.process [{ id := envId, dir := dir, pid := pid, ports := ports,
                  started := started, alive := alive,
                  units := [{ name := u1, state := State.Failed, detail := dt1 },
                            { name := u2, state := State.Starting, detail := dt2 }] }]).action
      = some (Action.SoundAndSpeak "Basso"
          ((u1 ++ " " ++ State.display State.Failed) ++ ", " ++
           (u2 ++ " " ++ State.display State.Starting))) := by
  have hcur : buildCurrent [{ id := envId, dir := dir, pid := pid, ports := ports,
                              started := started, alive := alive,
                              units := [{ name := u1, state := State.Failed, detail := dt1 },
                                        { name := u2, state := State.Starting, detail := dt2 }] }]
      = [((envId, u1), State.Failed), ((envId, u2), State.Starting)] := by
    simp [buildCurrent, insertUnits, insertKV, hne]
  have hch1 : (match lookupKV n.prev_states (envId, u1) with
              | some old_state => !state_variant_eq old_state State.Failed
              | Option.none => true) = true := by
    cases hl : lookupKV n.prev_states (envId, u1) with
    | none => rfl
    | some old => simp [hprev1 old hl]
  have hch2 : (match lookupKV n.prev_states (envId, u2) with
              | some old_state => !state_variant_eq old_state State.Starting
              | Option.none => true) = true := by
    cases hl : lookupKV n.prev_states (envId, u2) with
    | none => rfl
    | some old => simp [hprev2 old hl]
  have hmute1 : (n.global_mute || n.muted_units.contains (unit_key envId u1)) = false := by
    rw [hgm, hm1]
    rfl
  have hmute2 : (n.global_mute || n.muted_units.contains (unit_key envId u2)) = false := by
    rw [hgm, hm2]
    rfl
  obtain ⟨hs1, hb1⟩ := processEntry_fires n ⟨[], Option.none, []⟩ (envId, u1) State.Failed
    "Basso" (u1 ++ " " ++ State.display State.Failed) hch1 rfl hmute1
  obtain ⟨hs2, hb2⟩ := processEntry_fires n
    (processEntry n ⟨[], Option.none, []⟩ ((envId, u1), State.Failed)) (envId, u2)
    State.Starting "Submarine" (u2 ++ " " ++ State.display State.Starting) hch2 rfl hmute2
  rw [hb1] at hb2
  rw [hs1] at hs2
  simp only [List.nil_append] at hs1 hs2
  simp only [Notifier.process, hfl, if_neg Bool.false_ne_true, hcur, List.foldl_cons,
    List.foldl_nil]
  simp [hs2, hb2, higher_priority_sound, soundPriority, rustJoin]

/-- Witness for C1: units `a` (to `Failed`) and `b` (to `Starting`) appear
in one cycle; one Basso action carries both phrases. -/
theorem failed_and_starting_one_batched_alert_witness :
    (Notifier.process
        { global_mute := false, muted_units := [], global_notifications_off := false,
          notifications_off_units := [], prev_states := [], first_load := false }
        [{ id := "e", dir := "/d", pid := 1, ports := [], started := 0, alive := true,
           units := [{ name := "a", state := State.Failed, detail := Option.none },
                     { name := "b", state := State.Starting, detail := Option.none }] }]).action
      = some (Action.SoundAndSpeak "Basso"
          (("a" ++ " " ++ State.display State.Failed) ++ ", " ++
           ("b" ++ " " ++ State.display State.Starting))) :=
  failed_and_starting_one_batched_alert
    { global_mute := false, muted_units := [], global_notifications_off := false,
      notifications_off_units := [], prev_states := [], first_load := false }
    "e" "a" "b" "/d" Option.none Option.none 1 0 [] true
    rfl rfl (by decide) rfl rfl
    (fun old h => by simp [lookupKV] at h)
    (fun old h => by simp [lookupKV] at h)

lemma splitOnceList_singleton (c : Char) (l : List Char) :
    splitOnceList (c :: []) l =
      (if l.contains c then
        some (l.takeWhile (fun x => !(x == c)), (l.dropWhile (fun x => !(x == c))).tail)
      else Option.none) := by
  induction l with
  | nil => simp [splitOnceList]
  | cons a t ih =>
    by_cases hac : a = c
    · subst hac
      simp [splitOnceList, List.isPrefixOf, List.takeWhile, List.dropWhile]
    · have hca : ¬ (c = a) := fun h => hac h.symm
      have hb : (a == c) = false := beq_eq_false_iff_ne.mpr hac
      have hb2 : (c == a) = false := beq_eq_false_iff_ne.mpr hca
      simp only [splitOnceList, List.isPrefixOf, hb2, Bool.false_and, Bool.and_false]
      simp only [ih]
      by_cases hmem : c ∈ t
      · simp [hmem, hb, List.takeWhile_cons, List.dropWhile_cons, hca]
      · simp [hmem, hca]

lemma stripSuffixList_eq (l pat : List Char) :
    stripSuffixList l pat =
      (if l.length ≥ pat.length ∧ l.drop (l.length - pat.length) = pat then
        some (l.take (l.length - pat.length)) else Option.none) := by
  unfold stripSuffixList
  by_cases h : pat.isSuffixOf l = true
  · have hs : pat <:+ l := List.isSuffixOf_iff_suffix.mp h
    rw [if_pos h, if_pos ⟨hs.length_le, (List.suffix_iff_eq_drop.mp hs).symm⟩]
  · rw [if_neg h, if_neg]
    rintro ⟨hlen, hdrop⟩
    exact h (List.isSuffixOf_iff_suffix.mpr (hdrop ▸ List.drop_suffix _ l))

lemma stripDot_eq (l : List Char) :
    (match stripPrefixList ('.' :: []) l with
     | some r => r
     | Option.none => l) = (if l.head? = some '.' then l.tail else l) := by
  cases l with
  | nil => simp [stripPrefixList, List.isPrefixOf]
  | cons a t =>
    by_cases h : a = '.'
    · subst h
      simp [stripPrefixList, List.isPrefixOf]
    · have h2 : ('.' == a) = false := beq_eq_false_iff_ne.mpr (fun hh => h hh.symm)
      simp [stripPrefixList, List.isPrefixOf, h, h2]

lemma startsWithDot_cons (a : Char) (t : List Char) :
    startsWithDot (a :: t) = (a == '.') := by
  by_cases h : a = '.'
  · subst h
    simp [startsWithDot]
  · have hb : (a == '.') = false := beq_eq_false_iff_ne.mpr h
    rw [hb]
    unfold startsWithDot
    split
    · rename_i heq
      cases heq
      exact absurd rfl h
    · rfl

lemma extract_eq_rule (fname : String) : extract_hash_id fname = ruleExtract fname := by
  obtain ⟨l⟩ := fname
  have h7 : (".status".data).length = 7 := rfl
  unfold extract_hash_id ruleExtract
  rw [stripSuffixList_eq, h7]
  by_cases hsuf : l.length ≥ 7 ∧ l.drop (l.length - 7) = ".status".data
  · rw [if_pos hsuf, if_pos hsuf]
    dsimp only
    rw [stripDot_eq, splitOnceList_singleton]
    unfold ruleStatusId
    by_cases hc : (if (l.take (l.length - 7)).head? = some '.'
        then (l.take (l.length - 7)).tail
        else l.take (l.length - 7)).contains '.' = true
    · rw [if_pos hc, if_pos hc]
      cases htw : (if (l.take (l.length - 7)).head? = some '.'
          then (l.take (l.length - 7)).tail
          else l.take (l.length - 7)).takeWhile (fun x => !(x == '.')) with
      | nil => simp [htw]
      | cons c cs => simp [htw, apply_ite]
    · rw [if_neg hc, if_neg hc]
      rfl
  · rw [if_neg hsuf, if_neg hsuf]
    dsimp only
    cases l with
    | nil => simp [startsWithDot]
    | cons a t =>
      by_cases hdot : a = '.'
      · subst hdot
        simp [startsWithDot_cons]
      · by_cases hcont : '.' ∈ t
        · simp [startsWithDot_cons, hdot, hcont]
        · by_cases hhex : (a :: t).all isAsciiHexDigit = true
          · simp [startsWithDot_cons, hdot, hcont, hhex]
          · simp [startsWithDot_cons, hdot, hcont, hhex]

/-- C7 counterexample: the filename `ab` does not end in `.status`, so by
the claimed rule it would produce no event; the watch bridge nevertheless
maps a create event on it to `EnvironmentChanged "ab"` (the meta-file
branch of `extract_hash_id`, which the claimed rule omits). -/
theorem watch_rule_counterexample :
    (".status".data.isSuffixOf "ab".data) = false ∧
    mapEvent EventKind.Create "ab" = some (WatchEvent.EnvironmentChanged "ab") := by
  decide

/-- C7 as amended: the watch bridge's path-to-event mapping follows the
claimed `.status` rule, extended by the meta-file rule: a filename not
ending in `.status` that is non-empty, not dot-prefixed, dot-free and all
hex maps to events carrying the whole filename as id; removals map to
`EnvironmentRemoved`, creates/modifies to `EnvironmentChanged`, all other
shapes and kinds are silently ignored. -/
theorem watch_mapping_characterization (kind : EventKind) (fname : String) :
    mapEvent kind fname = ruleMapEvent kind fname := by
  have h := extract_eq_rule fname
  cases kind <;> cases hval : extract_hash_id fname <;>
    simp [mapEvent, ruleMapEvent, ← h, hval]

lemma readFile_of_mem_nodup {fs : List FsEntry}
    (hnd : (fs.map FsEntry.name).Nodup) {e : FsEntry} (he : e ∈ fs) :
    readFile fs e.name = some e.content := by
  induction fs with
  | nil => cases he
  | cons x t ih =>
    simp only [List.map_cons, List.nodup_cons] at hnd
    rcases List.mem_cons.mp he with rfl | he
    · simp [readFile]
    · have hne : x.name ≠ e.name := by
        intro hx
        exact hnd.1 (hx ▸ List.mem_map_of_mem FsEntry.name he)
      simp only [readFile, if_neg hne]
      exact ih hnd.2 he

lemma readFile_middle (pre post : List FsEntry) (e : FsEntry) (name : String)
    (hne : name ≠ e.name) :
    readFile (pre ++ e :: post) name = readFile (pre ++ post) name := by
  induction pre with
  | nil =>
    simp only [List.nil_append, readFile]
    rw [if_neg (fun h => hne h.symm)]
  | cons x t ih =>
    simp only [List.cons_append, readFile, List.append_eq]
    rw [ih]

lemma statusRest_none (id fname : String) (h : ¬ '.' ∈ fname.data) :
    statusRest id fname = Option.none := by
  unfold statusRest stripPrefixList
  rw [if_neg, if_neg]
  · intro hpf
    exact h ((List.isPrefixOf_iff_prefix.mp hpf).subset (List.mem_cons_self _ _))
  · intro hpf
    exact h ((List.isPrefixOf_iff_prefix.mp hpf).subset
      (List.mem_append_right _ (List.mem_cons_self _ _)))

lemma scanUnits_middle (pre post : List FsEntry) (e : FsEntry) (id : String)
    (h : statusRest id e.name = Option.none) :
    scanUnits (pre ++ e :: post) id = scanUnits (pre ++ post) id := by
  unfold scanUnits
  rw [List.foldl_append, List.foldl_append, List.foldl_cons, h]

lemma load_middle (pre post : List FsEntry) (e : FsEntry) (probe : Nat → Bool)
    (name : String) (hne : name ≠ e.name) (hdot : ¬ '.' ∈ e.name.data) :
    Environment.load (pre ++ e :: post) probe name
      = Environment.load (pre ++ post) probe name := by
  unfold Environment.load
  rw [readFile_middle pre post e name hne]
  cases readFile (pre ++ post) name with
  | none => rfl
  | some content =>
    dsimp only
    rw [scanUnits_middle pre post e name (statusRest_none name e.name hdot)]

/-- C8: a meta file whose content yields no parseable `PID` or no `DIR`
value loads to nothing, and removing it from the directory leaves
`load_all`'s output unchanged — the malformed environment is excluded
entirely while all others are unaffected. -/
theorem malformed_meta_excluded (pre post : List FsEntry) (e : FsEntry) (probe : Nat → Bool)
    (hnd : ((pre ++ e :: post).map FsEntry.name).Nodup)
    (hmeta : is_meta_file e.name = true)
    (hbad : (parseMeta e.content).pid = Option.none ∨ (parseMeta e.content).dir = Option.none) :
    Environment.load (pre ++ e :: post) probe e.name = Option.none ∧
    load_all (pre ++ e :: post) probe = load_all (pre ++ post) probe := by
  have hdot : ¬ '.' ∈ e.name.data := by
    have hm2 := hmeta
    simp only [is_meta_file, Bool.and_eq_true, Bool.not_eq_true'] at hm2
    simpa using hm2.1.2
  have hnotin : e.name ∉ (pre ++ post).map FsEntry.name := by
    have hperm : ((pre ++ e :: post).map FsEntry.name).Perm
        (e.name :: (pre ++ post).map FsEntry.name) := by
      rw [List.map_append, List.map_append, List.map_cons]
      exact List.perm_middle
    exact (List.nodup_cons.mp (hperm.nodup hnd)).1
  have hload : Environment.load (pre ++ e :: post) probe e.name = Option.none := by
    unfold Environment.load
    rw [readFile_of_mem_nodup hnd (List.mem_append_right pre (List.mem_cons_self e post))]
    rcases hbad with hb | hb
    · simp [hb]
    · cases hp : (parseMeta e.content).pid with
      | none => simp [hp]
      | some p => simp [hp, hb]
  have hcong : ∀ x ∈ pre ++ post,
      (if is_meta_file x.name then Environment.load (pre ++ e :: post) probe x.name
       else Option.none)
        = (if is_meta_file x.name then Environment.load (pre ++ post) probe x.name
           else Option.none) := by
    intro x hx
    have hne : x.name ≠ e.name := fun hh => hnotin (hh ▸ List.mem_map_of_mem FsEntry.name hx)
    by_cases hm : is_meta_file x.name = true
    · rw [if_pos hm, if_pos hm, load_middle pre post e probe x.name hne hdot]
    · rw [if_neg hm, if_neg hm]
  refine ⟨hload, ?_⟩
  unfold load_all
  congr 1
  rw [List.filterMap_append, List.filterMap_append, List.filterMap_cons]
  simp only [hmeta, if_true, hload]
  rw [List.filterMap_congr (fun x hx => hcong x (List.mem_append_left _ hx)),
      List.filterMap_congr (fun x hx => hcong x (List.mem_append_right _ hx))]


/-- Witness for C8: a registry with one meta file lacking `PID=` and one
well-formed meta file; the malformed one loads to nothing and drops out of
the scan. -/
theorem malformed_meta_excluded_witness :
    Environment.load [{ name := "aa", content := "DIR=/x\nSTARTED=5" },
                      { name := "bb", content := "DIR=/y\nPID=1" }] (fun _ => true) "aa"
      = Option.none ∧
    load_all [{ name := "aa", content := "DIR=/x\nSTARTED=5" },
              { name := "bb", content := "DIR=/y\nPID=1" }] (fun _ => true)
      = load_all [{ name := "bb", content := "DIR=/y\nPID=1" }] (fun _ => true) :=
  malformed_meta_excluded [] [{ name := "bb", content := "DIR=/y\nPID=1" }]
    { name := "aa", content := "DIR=/x\nSTARTED=5" } (fun _ => true)
    (by decide) (by decide) (Or.inl (by decide))

end Sutra
